import Mathlib

/-!
Verification of the serial-monitor core of `scripts/monitor.py`
(ESP32-PlatformIO-Project-Template).

Shallow embedding conventions:
* bytes are `Nat` values `< 256`, text is a list of Unicode code points (`List Nat`);
* `ESPMonitor`'s read/assemble loop (lines 92-110 of `monitor.py`) is embedded as a
  pure function over the sequence of chunks returned by `serial_conn.read`;
* wall-clock timestamps are abstracted as an optional prefix supplied from outside;
* Python library calls used by the script (`bytes.decode('utf-8', errors=...)`,
  `queue.Queue`, `re` on literal patterns) are embedded from their documented
  semantics, since their code is not part of the repository.
-/

namespace Monitor

/-- Is `b` a UTF-8 continuation byte (`0x80..0xBF`)? -/
def isCont (b : Nat) : Bool := 0x80 ≤ b && b ≤ 0xBF

/-- The Unicode replacement character U+FFFD, which Python's
`errors='replace'` handler substitutes for each maximal ill-formed subpart. -/
def replChar : Nat := 0xFFFD

/-- Python's UTF-8 decoder, `bytes.decode('utf-8', ...)`, embedded from its
documented semantics (CPython decodes by maximal subparts: each maximal
ill-formed subpart is one error).  `strict = true` models `errors='strict'`
(raise `UnicodeDecodeError`, embedded as `.error ()`); `strict = false`
models `errors='replace'` (substitute `U+FFFD`).  Input is a byte list,
output a code-point list. -/
def pyDecodeUtf8 (strict : Bool) : List Nat → Except Unit (List Nat)
  | [] => .ok []
  | b :: rest =>
    if b ≤ 0x7F then
      (fun s => b :: s) <$> pyDecodeUtf8 strict rest
    else if b ≤ 0xC1 then
      -- stray continuation byte, or the invalid leads 0xC0/0xC1
      if strict then .error () else (fun s => replChar :: s) <$> pyDecodeUtf8 strict rest
    else if b ≤ 0xDF then
      -- two-byte sequence
      match rest with
      | [] => if strict then .error () else .ok [replChar]
      | c1 :: rest1 =>
        if isCont c1 then
          (fun s => ((b - 0xC0) * 0x40 + (c1 - 0x80)) :: s) <$> pyDecodeUtf8 strict rest1
        else if strict then .error ()
        else (fun s => replChar :: s) <$> pyDecodeUtf8 strict (c1 :: rest1)
    else if b ≤ 0xEF then
      -- three-byte sequence; 0xE0 and 0xED restrict the first continuation
      match rest with
      | [] => if strict then .error () else .ok [replChar]
      | c1 :: rest1 =>
        if (if b = 0xE0 then 0xA0 else 0x80) ≤ c1 && c1 ≤ (if b = 0xED then 0x9F else 0xBF) then
          match rest1 with
          | [] => if strict then .error () else .ok [replChar]
          | c2 :: rest2 =>
            if isCont c2 then
              (fun s => ((b - 0xE0) * 0x1000 + (c1 - 0x80) * 0x40 + (c2 - 0x80)) :: s) <$>
                pyDecodeUtf8 strict rest2
            else if strict then .error ()
            else (fun s => replChar :: s) <$> pyDecodeUtf8 strict (c2 :: rest2)
        else if strict then .error ()
        else (fun s => replChar :: s) <$> pyDecodeUtf8 strict (c1 :: rest1)
    else if b ≤ 0xF4 then
      -- four-byte sequence; 0xF0 and 0xF4 restrict the first continuation
      match rest with
      | [] => if strict then .error () else .ok [replChar]
      | c1 :: rest1 =>
        if (if b = 0xF0 then 0x90 else 0x80) ≤ c1 && c1 ≤ (if b = 0xF4 then 0x8F else 0xBF) then
          match rest1 with
          | [] => if strict then .error () else .ok [replChar]
          | c2 :: rest2 =>
            if isCont c2 then
              match rest2 with
              | [] => if strict then .error () else .ok [replChar]
              | c3 :: rest3 =>
                if isCont c3 then
                  (fun s => ((b - 0xF0) * 0x40000 + (c1 - 0x80) * 0x1000 +
                      (c2 - 0x80) * 0x40 + (c3 - 0x80)) :: s) <$> pyDecodeUtf8 strict rest3
                else if strict then .error ()
                else (fun s => replChar :: s) <$> pyDecodeUtf8 strict (c3 :: rest3)
            else if strict then .error ()
            else (fun s => replChar :: s) <$> pyDecodeUtf8 strict (c2 :: rest2)
        else if strict then .error ()
        else (fun s => replChar :: s) <$> pyDecodeUtf8 strict (c1 :: rest1)
    else
      -- 0xF5..0xFF can never start a sequence
      if strict then .error () else (fun s => replChar :: s) <$> pyDecodeUtf8 strict rest

/-- Line 96 of `monitor.py`:
`self.serial_conn.read(...).decode('utf-8', errors='replace')`.
The `.error` branch corresponds to the `except UnicodeDecodeError` handler at
lines 112-114 (the `[BINARY DATA]` branch). -/
def chunk_decode (bs : List Nat) : List Nat :=
  match pyDecodeUtf8 false bs with
  | .ok s => s
  | .error _ => []

/-- The inner `while '\n' in buffer: line, buffer = buffer.split('\n', 1)` loop
(lines 100-101 of `monitor.py`): repeatedly split the decoded buffer at the
first newline.  Returns the extracted raw lines (before `rstrip`) in order,
and the pending remainder after the last terminator. -/
def extractLines : List Nat → List (List Nat) × List Nat
  | [] => ([], [])
  | b :: rest =>
    if b = 10 then
      let (ls, pend) := extractLines rest
      ([] :: ls, pend)
    else
      let (ls, pend) := extractLines rest
      match ls with
      | [] => ([], b :: pend)
      | l :: ls1 => ((b :: l) :: ls1, pend)

/-- Line 102 of `monitor.py`: `line.rstrip('\r')` — remove every trailing
carriage-return character (Python's `rstrip` strips a whole trailing run,
not a single character). -/
def rstrip_cr (l : List Nat) : List Nat :=
  (l.reverse.dropWhile (fun b => b = 13)).reverse

/-- `re_matchAt pat s i`: does the compiled pattern match starting at
position `i` of `s`?  The script's filter is an arbitrary `re` pattern
(line 20: `re.compile(filter_pattern)`); `re` is library code outside the
repository, so it is embedded for literal patterns (no metacharacters) —
exactly the patterns the specification's scenarios use — where matching at a
position is equality with the next `pat.length` code points. -/
def re_matchAt (pat s : List Nat) (i : Nat) : Bool :=
  decide ((s.drop i).take pat.length = pat)

/-- `pattern.search(s)` for a literal pattern: an unanchored scan that tries
every start position `0..s.length`. -/
def re_search (pat s : List Nat) : Bool :=
  (List.range (s.length + 1)).any (re_matchAt pat s)

/-- Lines 68-72 of `monitor.py` (`ESPMonitor.should_display`): pass when no
filter is configured, else `bool(self.filter_pattern.search(line))`. -/
def should_display (filter_pattern : Option (List Nat)) (line : List Nat) : Bool :=
  match filter_pattern with
  | none => true
  | some pat => re_search pat line

/-- Lines 102-110 of `monitor.py`: strip trailing carriage returns, then
forward the line only `if line and self.should_display(line)`.  Returns the
record forwarded to the sinks, or `none` when the line is dropped. -/
def process_line (filter_pattern : Option (List Nat)) (line : List Nat) : Option (List Nat) :=
  let l := rstrip_cr line
  if !l.isEmpty && should_display filter_pattern l then some l else none

/-- Lines 58-66 of `monitor.py` (`ESPMonitor.format_line`): prepend the
wall-clock timestamp prefix when timestamps are enabled.  The clock is
outside the program, so the rendered `"[HH:MM:SS.mmm] "` prefix is supplied
as `ts`. -/
def format_line (ts : Option (List Nat)) (line : List Nat) : List Nat :=
  match ts with
  | some t => t ++ line
  | none => line

/-- One sink dispatch (lines 104-110): whether the record is printed to the
console and whether it is enqueued for the log (the latter only when a log
file is configured). -/
def dispatch_line (filter_pattern : Option (List Nat)) (log_configured : Bool)
    (line : List Nat) : Bool × Bool :=
  match process_line filter_pattern line with
  | some _ => (true, log_configured)
  | none => (false, false)

/-- The outer read loop at the decoded-string level: feed each decoded chunk
into the pending buffer and extract all complete lines (lines 92-101 of
`monitor.py`).  Returns all raw lines in emission order and the final
pending buffer. -/
def runChunksStr (st : List Nat) : List (List Nat) → List (List Nat) × List Nat
  | [] => ([], st)
  | c :: cs =>
    let (ls, st1) := extractLines (st ++ c)
    let (ls1, st2) := runChunksStr st1 cs
    (ls ++ ls1, st2)

/-- The monitor session on a sequence of byte chunks (lines 92-110 of
`monitor.py`): decode each chunk with `errors='replace'`, assemble lines
across chunk boundaries, and apply the strip/filter dispatch.  Returns the
records forwarded to the sinks and the final pending buffer. -/
def monitor_run (filter_pattern : Option (List Nat)) (chunks : List (List Nat)) :
    List (List Nat) × List Nat :=
  let (raw, pend) := runChunksStr [] (chunks.map chunk_decode)
  (raw.filterMap (process_line filter_pattern), pend)

/-- The records a monitor session forwards to the sinks. -/
def monitor_emitted (filter_pattern : Option (List Nat)) (chunks : List (List Nat)) :
    List (List Nat) :=
  (monitor_run filter_pattern chunks).1

/-- What the console sink receives (line 106: `print(formatted_line)`). -/
def monitor_console (filter_pattern : Option (List Nat)) (ts : Option (List Nat))
    (chunks : List (List Nat)) : List (List Nat) :=
  (monitor_emitted filter_pattern chunks).map (format_line ts)

/-- What the log queue receives (line 110:
`self.log_queue.put(formatted_line + chr(10))`), when a log file is set. -/
def monitor_logged (filter_pattern : Option (List Nat)) (ts : Option (List Nat))
    (chunks : List (List Nat)) : List (List Nat) :=
  (monitor_emitted filter_pattern chunks).map (fun r => format_line ts r ++ [10])

/-- Re-attach the consumed terminators: the inverse of line extraction. -/
def joinNL (ls : List (List Nat)) : List Nat :=
  (ls.map (fun l => l ++ [10])).flatten

/-- Did a decode succeed? -/
def exceptOk (e : Except Unit (List Nat)) : Bool :=
  match e with
  | .ok _ => true
  | .error _ => false


/-! ### Log queue and background writer -/

/-- Line 23 of `monitor.py`: `self.log_queue = queue.Queue()` — CPython's
`queue.Queue` default `maxsize` is `0`, meaning infinite. -/
def log_queue_maxsize : Nat := 0

/-- `queue.Queue` fullness (Python semantics): a queue is full only when
`0 < maxsize ≤ len(queue)`; with `maxsize = 0` it is never full. -/
def queue_full (maxsize : Nat) (q : List (List Nat)) : Bool :=
  0 < maxsize && maxsize ≤ q.length

/-- `queue.Queue.put` when the queue is not full: append the item.  When the
queue is full a default `put` blocks; `queue_put` models the completed
operation. -/
def queue_put (q : List (List Nat)) (x : List Nat) : List (List Nat) :=
  q ++ [x]

/-- Whether line 110's `self.log_queue.put(...)` blocks: it does exactly when
the queue is full. -/
def queue_put_blocks (maxsize : Nat) (q : List (List Nat)) : Bool :=
  queue_full maxsize q

/-- The queue contents after `n` producer enqueues of records `f 0, ..., f (n-1)`
starting from the empty queue (the read loop at line 110 only ever enqueues). -/
def queue_after_puts (f : Nat → List Nat) : Nat → List (List Nat)
  | 0 => []
  | n + 1 => queue_put (queue_after_puts f n) (f n)

/-! ### Shutdown interleaving model for the log writer

The monitoring thread and the `log_writer` thread (lines 41-56 and 122-127 of
`monitor.py`) share only `self.running` and `self.log_queue`.  A system state
records both plus the file contents, and an execution is a list of events,
each one atomic step of one thread. -/

/-- Shared state of the two threads: the `running` flag, the queue contents,
the records already written to the log file, and whether the writer thread
has left its loop (after which the `with open` block closes the file). -/
structure LogSys where
  running : Bool
  queue : List (List Nat)
  written : List (List Nat)
  writerDone : Bool
  deriving DecidableEq, Repr

/-- Initial state once monitoring has started (line 79 sets `running = True`,
the queue starts empty, the log file starts with no records of this session). -/
def logInit : LogSys := ⟨true, [], [], false⟩

/-- One atomic event of the shutdown interleaving. -/
inductive LogEvent where
  /-- Line 110: the read loop enqueues a formatted record. -/
  | enqueue (r : List Nat)
  /-- Line 123 in the `finally` block: `self.running = False`. -/
  | stop
  /-- One iteration of the `log_writer` loop (lines 48-54): check `running`
  (exit the loop if false), else dequeue one entry and write it, or time out
  on an empty queue and continue. -/
  | writerStep
  deriving DecidableEq, Repr

/-- Apply one event to the state. -/
def logStep (s : LogSys) : LogEvent → LogSys
  | .enqueue r => { s with queue := queue_put s.queue r }
  | .stop => { s with running := false }
  | .writerStep =>
    if s.writerDone then s
    else if !s.running then { s with writerDone := true }
    else
      match s.queue with
      | [] => s
      | r :: rest => { s with queue := rest, written := s.written ++ [r] }

/-- Run an interleaving (a list of events) from a state. -/
def logRun (s : LogSys) (evs : List LogEvent) : LogSys :=
  evs.foldl logStep s

/-! ### Process exit status -/

/-- `ESPMonitor.monitor` (lines 74-129): returns `False` when `connect()`
fails (line 76-77) and `True` otherwise — a `KeyboardInterrupt` is caught at
line 118 and still reaches the final `return True`. -/
def monitor_returns (connect_ok : Bool) (interrupted : Bool) : Bool :=
  if !connect_ok then false else (fun _ => true) interrupted

/-- `main` (lines 146-178): in monitoring mode it calls `monitor.monitor(...)`
and discards the result; in single-command mode it calls `connect`, `send`,
`disconnect` and discards the results.  `main` never raises out of these
calls and never calls `sys.exit`, so the interpreter exits with status `0`
regardless of `connect_ok`. -/
def main_exit_code (command : Option (List Nat)) (connect_ok : Bool) : Nat :=
  (fun _ _ => 0) command connect_ok

/-! ### Basic facts about line extraction -/

theorem extractLines_cons_nl (rest : List Nat) :
    extractLines (10 :: rest) = ([] :: (extractLines rest).1, (extractLines rest).2) := by
  simp [extractLines]

theorem extractLines_cons_nil (b : Nat) (rest : List Nat) (hb : b ≠ 10)
    (h : (extractLines rest).1 = []) :
    extractLines (b :: rest) = ([], b :: (extractLines rest).2) := by
  simp [extractLines, hb, h]

theorem extractLines_cons_cons (b : Nat) (rest : List Nat) (hb : b ≠ 10)
    (l : List Nat) (ls1 : List (List Nat)) (h : (extractLines rest).1 = l :: ls1) :
    extractLines (b :: rest) = ((b :: l) :: ls1, (extractLines rest).2) := by
  simp [extractLines, hb, h]

/-- A buffer with no terminator yields no line and stays pending whole. -/
theorem extractLines_no_nl (st : List Nat) (h : 10 ∉ st) : extractLines st = ([], st) := by
  induction st with
  | nil => rfl
  | cons b rest ih =>
    have hb : b ≠ 10 := by intro hc; exact h (hc ▸ List.mem_cons_self b rest)
    have hrest : 10 ∉ rest := fun hc => h (List.mem_cons_of_mem b hc)
    have h1 : (extractLines rest).1 = [] := by rw [ih hrest]
    rw [extractLines_cons_nil b rest hb h1, ih hrest]

/-- The pending remainder never contains a terminator. -/
theorem extractLines_pend_no_nl (buf : List Nat) : 10 ∉ (extractLines buf).2 := by
  induction buf with
  | nil => simp [extractLines]
  | cons b rest ih =>
    by_cases hb : b = 10
    · subst hb; rw [extractLines_cons_nl]; exact ih
    · rcases h : (extractLines rest).1 with _ | ⟨l, ls1⟩
      · rw [extractLines_cons_nil b rest hb h]
        simp only [List.mem_cons]
        rintro (hc | hc)
        · exact hb hc.symm
        · exact ih hc
      · rw [extractLines_cons_cons b rest hb l ls1 h]; exact ih

/-- Line extraction loses no byte: lines with their terminators restored,
followed by the pending remainder, reconstruct the buffer. -/
theorem extractLines_recon (buf : List Nat) :
    joinNL (extractLines buf).1 ++ (extractLines buf).2 = buf := by
  induction buf with
  | nil => rfl
  | cons b rest ih =>
    by_cases hb : b = 10
    · subst hb
      rw [extractLines_cons_nl]
      simp only [joinNL, List.map_cons, List.flatten_cons, List.nil_append] at ih ⊢
      simp only [List.cons_append, List.nil_append]
      rw [ih]
    · rcases h : (extractLines rest).1 with _ | ⟨l, ls1⟩
      · rw [extractLines_cons_nil b rest hb h]
        rw [h] at ih
        simp only [joinNL, List.map_nil, List.flatten_nil, List.nil_append] at ih ⊢
        rw [ih]
      · rw [extractLines_cons_cons b rest hb l ls1 h]
        rw [h] at ih
        simp only [joinNL, List.map_cons, List.flatten_cons, List.cons_append,
          List.append_assoc] at ih ⊢
        rw [ih]

/-- Composition: extracting from `x ++ y` is extracting from `x`, then feeding
`y` after the pending remainder of `x`.  This is the heart of
chunking-invariance at the decoded-text level. -/
theorem extractLines_append (x y : List Nat) :
    extractLines (x ++ y) =
      ((extractLines x).1 ++ (extractLines ((extractLines x).2 ++ y)).1,
       (extractLines ((extractLines x).2 ++ y)).2) := by
  induction x with
  | nil => simp [extractLines]
  | cons b x ih =>
    by_cases hb : b = 10
    · subst hb
      rw [List.cons_append, extractLines_cons_nl, extractLines_cons_nl, ih]
      simp
    · rcases h : (extractLines x).1 with _ | ⟨l, ls1⟩
      · rw [extractLines_cons_nil b x hb h, List.cons_append, List.cons_append]
        rcases h2 : (extractLines ((extractLines x).2 ++ y)).1 with _ | ⟨m, ms⟩
        · have hxy : (extractLines (x ++ y)).1 = [] := by rw [ih, h, h2]; simp
          rw [extractLines_cons_nil b (x ++ y) hb hxy,
              extractLines_cons_nil b ((extractLines x).2 ++ y) hb h2]
          rw [ih, h]
          simp
        · have hxy : (extractLines (x ++ y)).1 = m :: ms := by rw [ih, h, h2]; simp
          rw [extractLines_cons_cons b (x ++ y) hb m ms hxy,
              extractLines_cons_cons b ((extractLines x).2 ++ y) hb m ms h2]
          rw [ih, h]
          simp
      · rw [extractLines_cons_cons b x hb l ls1 h, List.cons_append]
        have hxy : (extractLines (x ++ y)).1 =
            l :: (ls1 ++ (extractLines ((extractLines x).2 ++ y)).1) := by
          rw [ih, h]; simp
        rw [extractLines_cons_cons b (x ++ y) hb _ _ hxy, ih]
        simp

/-- Feeding decoded chunks one at a time through the buffer loop equals one
extraction pass over their concatenation, provided the starting pending
buffer holds no terminator (true of every reachable buffer state). -/
theorem runChunksStr_eq (cs : List (List Nat)) (st : List Nat) (h : 10 ∉ st) :
    runChunksStr st cs = extractLines (st ++ cs.flatten) := by
  induction cs generalizing st with
  | nil =>
    simp only [runChunksStr, List.flatten_nil, List.append_nil]
    rw [extractLines_no_nl st h]
  | cons c cs ih =>
    simp only [runChunksStr]
    rw [ih _ (extractLines_pend_no_nl (st ++ c))]
    rw [List.flatten_cons, ← List.append_assoc]
    rw [extractLines_append (st ++ c) cs.flatten]

/-! ### Decoder facts -/

theorem exceptOk_fmap (f : List Nat → List Nat) (e : Except Unit (List Nat)) :
    exceptOk (f <$> e) = exceptOk e := by
  cases e <;> rfl

/-- With `errors='replace'`, decoding any byte list of length at most `n`
succeeds. -/
theorem pyDecodeUtf8_replace_ok_aux (n : Nat) :
    ∀ bs : List Nat, bs.length ≤ n → exceptOk (pyDecodeUtf8 false bs) = true := by
  induction n with
  | zero =>
    intro bs h
    have hb : bs = [] := by cases bs with | nil => rfl | cons x xs => simp at h
    subst hb; rfl
  | succ n ih =>
    intro bs h
    cases bs with
    | nil => rfl
    | cons b rest =>
      rw [pyDecodeUtf8.eq_def]
      simp only [Bool.false_eq_true, if_false]
      repeat' split
      all_goals
        first
        | rfl
        | (rw [exceptOk_fmap]; apply ih; simp only [List.length_cons] at *; omega)

/-- ASCII bytes decode to themselves under UTF-8. -/
theorem pyDecodeUtf8_ascii (bs : List Nat) (h : ∀ b ∈ bs, b ≤ 0x7F) :
    pyDecodeUtf8 false bs = .ok bs := by
  induction bs with
  | nil => rfl
  | cons b rest ih =>
    have hb : b ≤ 0x7F := h b (List.mem_cons_self b rest)
    rw [pyDecodeUtf8.eq_def]
    simp only [hb, if_true]
    rw [ih (fun x hx => h x (List.mem_cons_of_mem b hx))]
    rfl

theorem chunk_decode_ascii (bs : List Nat) (h : ∀ b ∈ bs, b ≤ 0x7F) :
    chunk_decode bs = bs := by
  unfold chunk_decode
  rw [pyDecodeUtf8_ascii bs h]

/-- A monitor session is one extraction pass over the concatenation of the
per-chunk decodes, followed by the strip/filter dispatch. -/
theorem monitor_run_eq (f : Option (List Nat)) (chunks : List (List Nat)) :
    monitor_run f chunks =
      ((extractLines ((chunks.map chunk_decode).flatten)).1.filterMap (process_line f),
       (extractLines ((chunks.map chunk_decode).flatten)).2) := by
  unfold monitor_run
  rw [runChunksStr_eq _ [] (by simp)]
  simp

/-- Chunking invariance for all-ASCII traffic: when no chunk contains a byte
above `0x7F`, per-chunk decoding is harmless and re-chunking cannot change
the records. -/
theorem monitor_chunking_ascii (f : Option (List Nat)) (chunks : List (List Nat))
    (h : ∀ c ∈ chunks, ∀ b ∈ c, b ≤ 0x7F) :
    monitor_run f chunks = monitor_run f [chunks.flatten] := by
  have hmap : chunks.map chunk_decode = chunks := by
    have h2 : chunks.map chunk_decode = chunks.map id :=
      List.map_congr_left (fun c hc => chunk_decode_ascii c (h c hc))
    rw [h2, List.map_id]
  have hflat : chunk_decode chunks.flatten = chunks.flatten := by
    apply chunk_decode_ascii
    intro b hb
    rcases List.mem_flatten.mp hb with ⟨c, hc, hbc⟩
    exact h c hc b hbc
  rw [monitor_run_eq, monitor_run_eq, hmap]
  simp [hflat]

/-! ### Decoding distributes over well-formed chunk boundaries -/

theorem fmap_ok (f : List Nat → List Nat) (s : List Nat) :
    (f <$> (Except.ok s : Except Unit (List Nat))) = .ok (f s) := rfl

theorem fmap_err (f : List Nat → List Nat) (u : Unit) :
    (f <$> (Except.error u : Except Unit (List Nat))) = .error u := rfl

theorem fmap_comp (f g : List Nat → List Nat) (e : Except Unit (List Nat)) :
    (f <$> (g <$> e)) = (fun s => f (g s)) <$> e := by
  cases e <;> rfl

theorem pyDecodeUtf8_step_helper {n : Nat}
    (ih : ∀ x y dx : List Nat, x.length ≤ n → pyDecodeUtf8 true x = .ok dx →
      pyDecodeUtf8 false x = .ok dx ∧
      pyDecodeUtf8 false (x ++ y) = (fun s => dx ++ s) <$> pyDecodeUtf8 false y)
    (cp : Nat) (tail y dx : List Nat) (hlen : tail.length ≤ n)
    (hx : (fun s => cp :: s) <$> pyDecodeUtf8 true tail = .ok dx) :
    ((fun s => cp :: s) <$> pyDecodeUtf8 false tail = .ok dx) ∧
    ((fun s => cp :: s) <$> pyDecodeUtf8 false (tail ++ y) =
      (fun s => dx ++ s) <$> pyDecodeUtf8 false y) := by
  rcases he : pyDecodeUtf8 true tail with u | d
  · rw [he, fmap_err] at hx
    exact Except.noConfusion hx
  · rw [he, fmap_ok] at hx
    injection hx with hx
    subst hx
    obtain ⟨h1, h2⟩ := ih tail y d hlen he
    refine ⟨by rw [h1, fmap_ok], ?_⟩
    rw [h2, fmap_comp]
    rfl

theorem pyDecodeUtf8_append_aux (n : Nat) :
    ∀ x y dx : List Nat, x.length ≤ n → pyDecodeUtf8 true x = .ok dx →
      pyDecodeUtf8 false x = .ok dx ∧
      pyDecodeUtf8 false (x ++ y) = (fun s => dx ++ s) <$> pyDecodeUtf8 false y := by
  induction n with
  | zero =>
    intro x y dx h hx
    have hxe : x = [] := by cases x with | nil => rfl | cons a l => simp at h
    subst hxe
    simp only [pyDecodeUtf8] at hx
    injection hx with hx
    subst hx
    refine ⟨rfl, ?_⟩
    rw [List.nil_append]
    cases pyDecodeUtf8 false y <;> simp
  | succ n ih =>
    intro x y dx h hx
    cases x with
    | nil =>
      simp only [pyDecodeUtf8] at hx
      injection hx with hx
      subst hx
      refine ⟨rfl, ?_⟩
      rw [List.nil_append]
      cases pyDecodeUtf8 false y <;> simp
    | cons b rest =>
      by_cases hb0 : b ≤ 0x7F
      · rw [pyDecodeUtf8.eq_def] at hx
        simp only [hb0, if_true, ite_true] at hx
        have hlen : rest.length ≤ n := by simp only [List.length_cons] at h; omega
        have hstep := pyDecodeUtf8_step_helper ih b rest y dx hlen hx
        refine ⟨?_, ?_⟩
        · rw [pyDecodeUtf8.eq_def]
          simp only [hb0, if_true, ite_true]
          exact hstep.1
        · rw [List.cons_append, pyDecodeUtf8.eq_def]
          simp only [hb0, if_true, ite_true]
          exact hstep.2
      · by_cases hb1 : b ≤ 0xC1
        · rw [pyDecodeUtf8.eq_def] at hx
          simp [hb0, hb1] at hx
        · by_cases hb2 : b ≤ 0xDF
          · cases rest with
            | nil =>
              rw [pyDecodeUtf8.eq_def] at hx
              simp [hb0, hb1, hb2] at hx
            | cons c1 rest1 =>
              rw [pyDecodeUtf8.eq_def] at hx
              cases hc1 : isCont c1 with
              | false => simp [hb0, hb1, hb2, hc1] at hx
              | true =>
                simp only [hb0, hb1, hb2, hc1, if_true, if_false, ite_true, ite_false] at hx
                have hlen : rest1.length ≤ n := by
                  simp only [List.length_cons] at h; omega
                have hstep := pyDecodeUtf8_step_helper ih
                  ((b - 0xC0) * 0x40 + (c1 - 0x80)) rest1 y dx hlen hx
                refine ⟨?_, ?_⟩
                · rw [pyDecodeUtf8.eq_def]
                  simp only [hb0, hb1, hb2, hc1, if_true, if_false, ite_true, ite_false]
                  exact hstep.1
                · rw [List.cons_append, List.cons_append, pyDecodeUtf8.eq_def]
                  simp only [hb0, hb1, hb2, hc1, if_true, if_false, ite_true, ite_false]
                  exact hstep.2
          · by_cases hb3 : b ≤ 0xEF
            · cases rest with
              | nil =>
                rw [pyDecodeUtf8.eq_def] at hx
                simp [hb0, hb1, hb2, hb3] at hx
              | cons c1 rest1 =>
                rw [pyDecodeUtf8.eq_def] at hx
                cases hr1 : ((if b = 0xE0 then 0xA0 else 0x80) ≤ c1 &&
                    c1 ≤ (if b = 0xED then 0x9F else 0xBF)) with
                | false => simp [hb0, hb1, hb2, hb3, hr1] at hx
                | true =>
                  cases rest1 with
                  | nil => simp [hb0, hb1, hb2, hb3, hr1] at hx
                  | cons c2 rest2 =>
                    cases hc2 : isCont c2 with
                    | false => simp [hb0, hb1, hb2, hb3, hr1, hc2] at hx
                    | true =>
                      simp only [hb0, hb1, hb2, hb3, hr1, hc2, if_true, if_false,
                        ite_true, ite_false] at hx
                      have hlen : rest2.length ≤ n := by
                        simp only [List.length_cons] at h; omega
                      have hstep := pyDecodeUtf8_step_helper ih
                        ((b - 0xE0) * 0x1000 + (c1 - 0x80) * 0x40 + (c2 - 0x80))
                        rest2 y dx hlen hx
                      refine ⟨?_, ?_⟩
                      · rw [pyDecodeUtf8.eq_def]
                        simp only [hb0, hb1, hb2, hb3, hr1, hc2, if_true, if_false,
                          ite_true, ite_false]
                        exact hstep.1
                      · rw [List.cons_append, List.cons_append, List.cons_append,
                          pyDecodeUtf8.eq_def]
                        simp only [hb0, hb1, hb2, hb3, hr1, hc2, if_true, if_false,
                          ite_true, ite_false]
                        exact hstep.2
            · by_cases hb4 : b ≤ 0xF4
              · cases rest with
                | nil =>
                  rw [pyDecodeUtf8.eq_def] at hx
                  simp [hb0, hb1, hb2, hb3, hb4] at hx
                | cons c1 rest1 =>
                  rw [pyDecodeUtf8.eq_def] at hx
                  cases hr1 : ((if b = 0xF0 then 0x90 else 0x80) ≤ c1 &&
                      c1 ≤ (if b = 0xF4 then 0x8F else 0xBF)) with
                  | false => simp [hb0, hb1, hb2, hb3, hb4, hr1] at hx
                  | true =>
                    cases rest1 with
                    | nil => simp [hb0, hb1, hb2, hb3, hb4, hr1] at hx
                    | cons c2 rest2 =>
                      cases hc2 : isCont c2 with
                      | false => simp [hb0, hb1, hb2, hb3, hb4, hr1, hc2] at hx
                      | true =>
                        cases rest2 with
                        | nil => simp [hb0, hb1, hb2, hb3, hb4, hr1, hc2] at hx
                        | cons c3 rest3 =>
                          cases hc3 : isCont c3 with
                          | false => simp [hb0, hb1, hb2, hb3, hb4, hr1, hc2, hc3] at hx
                          | true =>
                            simp only [hb0, hb1, hb2, hb3, hb4, hr1, hc2, hc3, if_true,
                              if_false, ite_true, ite_false] at hx
                            have hlen : rest3.length ≤ n := by
                              simp only [List.length_cons] at h; omega
                            have hstep := pyDecodeUtf8_step_helper ih
                              ((b - 0xF0) * 0x40000 + (c1 - 0x80) * 0x1000 +
                                (c2 - 0x80) * 0x40 + (c3 - 0x80)) rest3 y dx hlen hx
                            refine ⟨?_, ?_⟩
                            · rw [pyDecodeUtf8.eq_def]
                              simp only [hb0, hb1, hb2, hb3, hb4, hr1, hc2, hc3, if_true,
                                if_false, ite_true, ite_false]
                              exact hstep.1
                            · rw [List.cons_append, List.cons_append, List.cons_append,
                                List.cons_append, pyDecodeUtf8.eq_def]
                              simp only [hb0, hb1, hb2, hb3, hb4, hr1, hc2, hc3, if_true,
                                if_false, ite_true, ite_false]
                              exact hstep.2
              · rw [pyDecodeUtf8.eq_def] at hx
                simp [hb0, hb1, hb2, hb3, hb4] at hx

/-- Appending after a well-formed (strict-decodable) chunk decodes to the
concatenation of the decodes. -/
theorem chunk_decode_append_valid (x y : List Nat)
    (hx : exceptOk (pyDecodeUtf8 true x) = true) :
    chunk_decode (x ++ y) = chunk_decode x ++ chunk_decode y := by
  rcases he : pyDecodeUtf8 true x with u | dx
  · rw [he] at hx
    simp [exceptOk] at hx
  · obtain ⟨h1, h2⟩ := pyDecodeUtf8_append_aux x.length x y dx le_rfl he
    unfold chunk_decode
    rw [h1, h2]
    rcases hy : pyDecodeUtf8 false y with u | dy
    · have htot := pyDecodeUtf8_replace_ok_aux y.length y le_rfl
      rw [hy] at htot
      simp [exceptOk] at htot
    · rw [fmap_ok]

/-- Decoding the whole stream equals concatenating the per-chunk decodes,
when every chunk is well-formed UTF-8 on its own. -/
theorem chunk_decode_flatten (chunks : List (List Nat))
    (h : ∀ c ∈ chunks, exceptOk (pyDecodeUtf8 true c) = true) :
    chunk_decode chunks.flatten = (chunks.map chunk_decode).flatten := by
  induction chunks with
  | nil => rfl
  | cons c cs ih =>
    rw [List.flatten_cons, chunk_decode_append_valid c cs.flatten (h c (List.mem_cons_self c cs)),
      List.map_cons, List.flatten_cons, ih (fun d hd => h d (List.mem_cons_of_mem c hd))]

/-- Chunking invariance whenever each chunk is well-formed UTF-8 by itself
(in particular whenever no multi-byte sequence is split at a boundary). -/
theorem monitor_chunking_valid (f : Option (List Nat)) (chunks : List (List Nat))
    (h : ∀ c ∈ chunks, exceptOk (pyDecodeUtf8 true c) = true) :
    monitor_run f chunks = monitor_run f [chunks.flatten] := by
  rw [monitor_run_eq, monitor_run_eq]
  rw [List.map_cons, List.map_nil, List.flatten_cons, List.flatten_nil, List.append_nil]
  rw [chunk_decode_flatten chunks h]

/-! ### Filtering, stripping, and sink facts -/

/-- Unanchored search succeeds exactly when the pattern occurs somewhere
inside the line. -/
theorem re_search_iff (pat s : List Nat) :
    re_search pat s = true ↔ ∃ u v, s = u ++ pat ++ v := by
  unfold re_search
  rw [List.any_eq_true]
  constructor
  · rintro ⟨i, hi, hmatch⟩
    unfold re_matchAt at hmatch
    rw [decide_eq_true_iff] at hmatch
    refine ⟨s.take i, (s.drop i).drop pat.length, ?_⟩
    conv_lhs => rw [← List.take_append_drop i s]
    conv_lhs => rw [← List.take_append_drop pat.length (s.drop i)]
    rw [hmatch, List.append_assoc]
  · rintro ⟨u, v, rfl⟩
    refine ⟨u.length, ?_, ?_⟩
    · rw [List.mem_range]
      simp [List.length_append]
      omega
    · unfold re_matchAt
      rw [decide_eq_true_iff]
      rw [List.append_assoc, List.drop_left, List.take_left]

theorem rstrip_cr_append_cr (l : List Nat) : rstrip_cr (l ++ [13]) = rstrip_cr l := by
  unfold rstrip_cr
  rw [List.reverse_append]
  simp [List.dropWhile_cons]

theorem rstrip_cr_append_ne (l : List Nat) (a : Nat) (ha : a ≠ 13) :
    rstrip_cr (l ++ [a]) = l ++ [a] := by
  unfold rstrip_cr
  rw [List.reverse_append]
  simp [List.dropWhile_cons, ha]

/-- `rstrip` removes exactly the whole trailing run of carriage returns and
nothing else: the input is the stripped line followed by some number of
`CR` bytes, and the stripped line does not end in `CR`. -/
theorem rstrip_cr_spec (l : List Nat) :
    ∃ k, l = rstrip_cr l ++ List.replicate k 13 ∧
      ∀ x, (rstrip_cr l).getLast? = some x → x ≠ 13 := by
  induction l using List.reverseRecOn with
  | nil => exact ⟨0, by simp [rstrip_cr], by simp [rstrip_cr]⟩
  | append_singleton l a ih =>
    by_cases ha : a = 13
    · subst ha
      rcases ih with ⟨k, hk, hlast⟩
      refine ⟨k + 1, ?_, ?_⟩
      · rw [rstrip_cr_append_cr, List.replicate_succ', ← List.append_assoc, ← hk]
      · rw [rstrip_cr_append_cr]; exact hlast
    · refine ⟨0, ?_, ?_⟩
      · rw [rstrip_cr_append_ne l a ha]; simp
      · rw [rstrip_cr_append_ne l a ha]
        intro x hx
        rw [List.getLast?_concat] at hx
        injection hx with hx
        subst hx
        exact ha

/-- A forwarded record is the stripped line; it is non-empty and passed the
filter. -/
theorem process_line_some (f : Option (List Nat)) (line r : List Nat)
    (h : process_line f line = some r) :
    r = rstrip_cr line ∧ r ≠ [] ∧ should_display f r = true := by
  simp only [process_line] at h
  by_cases hc : (!(rstrip_cr line).isEmpty && should_display f (rstrip_cr line)) = true
  · rw [if_pos hc] at h
    injection h with h
    subst h
    rw [Bool.and_eq_true, Bool.not_eq_true'] at hc
    refine ⟨rfl, ?_, hc.2⟩
    intro hr
    rw [hr] at hc
    simp at hc
  · rw [if_neg hc] at h
    exact Option.noConfusion h

/-- Every record a session forwards to the sinks is non-empty. -/
theorem monitor_emitted_nonempty (f : Option (List Nat)) (cs : List (List Nat))
    (r : List Nat) (h : r ∈ monitor_emitted f cs) : r ≠ [] := by
  unfold monitor_emitted monitor_run at h
  simp only [List.mem_filterMap] at h
  rcases h with ⟨a, _, ha⟩
  exact (process_line_some f a r ha).2.1

/-! ### Log-writer shutdown facts -/

theorem logRun_cons (s : LogSys) (e : LogEvent) (evs : List LogEvent) :
    logRun s (e :: evs) = logRun (logStep s e) evs := rfl

/-- Once the writer has left its loop, no event writes anything further. -/
theorem logStep_done (s : LogSys) (e : LogEvent) (h : s.writerDone = true) :
    (logStep s e).written = s.written ∧ (logStep s e).writerDone = true := by
  cases e <;> simp [logStep, h, queue_put]

theorem logRun_written_stable (evs : List LogEvent) (s : LogSys) (h : s.writerDone = true) :
    (logRun s evs).written = s.written := by
  induction evs generalizing s with
  | nil => rfl
  | cons e evs ih =>
    rw [logRun_cons]
    obtain ⟨h1, h2⟩ := logStep_done s e h
    rw [ih (logStep s e) h2, h1]

theorem queue_after_puts_length (f : Nat → List Nat) (n : Nat) :
    (queue_after_puts f n).length = n := by
  induction n with
  | zero => rfl
  | succ n ih => simp [queue_after_puts, queue_put, ih]

/-! ## Claims -/

/-- **C1, counterexample.**  Chunk boundaries can change the output: the
two-byte UTF-8 sequence `0xC3 0xA9` (LATIN SMALL LETTER E WITH ACUTE)
followed by a newline, split after its first byte, yields a record of two
replacement characters instead of the letter, because line 96 decodes each
chunk independently with `errors='replace'`. -/
theorem C1_counterexample :
    List.flatten [[0xC3], [0xA9, 10]] = [0xC3, 0xA9, 10] ∧
    monitor_run none [[0xC3], [0xA9, 10]] ≠ monitor_run none [[0xC3, 0xA9, 10]] := by
  decide

/-- **C1 (amended).**  When every chunk is well-formed UTF-8 on its own — in
particular when no multi-byte sequence is split across a chunk boundary —
feeding the chunks one at a time emits exactly the same records, and leaves
the same pending buffer, as feeding the entire byte sequence as one chunk. -/
theorem C1_chunking_invariance (f : Option (List Nat)) (chunks : List (List Nat))
    (h : ∀ c ∈ chunks, exceptOk (pyDecodeUtf8 true c) = true) :
    monitor_run f chunks = monitor_run f [chunks.flatten] :=
  monitor_chunking_valid f chunks h

/-- **C1, witness.**  Two well-formed chunks ("é\n" and "OK\n"). -/
theorem C1_chunking_invariance_witness :
    (∀ c ∈ [[0xC3, 0xA9, 10], [79, 75, 10]], exceptOk (pyDecodeUtf8 true c) = true) ∧
    monitor_run none [[0xC3, 0xA9, 10], [79, 75, 10]] =
      monitor_run none [List.flatten [[0xC3, 0xA9, 10], [79, 75, 10]]] :=
  ⟨by decide, C1_chunking_invariance none [[0xC3, 0xA9, 10], [79, 75, 10]] (by decide)⟩

/-- **C2, counterexample.**  On a failed connection `monitor()` returns
`False`, but `main` discards that result and never calls `sys.exit`, so the
interpreter still exits with status 0 — not nonzero as claimed. -/
theorem C2_counterexample :
    monitor_returns false false = false ∧ ¬ main_exit_code none false ≠ 0 := by
  decide

/-- **C2 (amended).**  The process exits with status 0 both on a clean stop
(including a keyboard interrupt) and on connection failure; the failure is
signalled only by `monitor()` returning `False`, which `main` ignores. -/
theorem C2_exit_status (command : Option (List Nat)) (connect_ok interrupted : Bool) :
    main_exit_code command connect_ok = 0 ∧
    monitor_returns connect_ok interrupted = connect_ok := by
  refine ⟨rfl, ?_⟩
  cases connect_ok <;> rfl

/-- **C3, counterexample.**  A record enqueued before the stop signal can be
lost: after enqueue, stop, and one writer iteration, the writer has left its
loop (the file is closed) with the record still queued and nothing written —
the claimed drain does not happen. -/
theorem C3_counterexample :
    (logRun logInit [.enqueue [120], .stop, .writerStep]).writerDone = true ∧
    (logRun logInit [.enqueue [120], .stop, .writerStep]).queue = [[120]] ∧
    (logRun logInit [.enqueue [120], .stop, .writerStep]).written = [] := by
  decide

/-- **C3 (amended).**  The writer drains nothing once the stop signal is
observed: from any state with `running = False` and the writer still in its
loop, the next loop check exits immediately without touching the queue, and
no entry still queued at that point is ever written afterwards. -/
theorem C3_shutdown_no_drain (s : LogSys) (h1 : s.running = false)
    (h2 : s.writerDone = false) :
    logStep s .writerStep = { s with writerDone := true } ∧
    ∀ evs, (logRun (logStep s .writerStep) evs).written = s.written := by
  have hstep : logStep s .writerStep = { s with writerDone := true } := by
    simp [logStep, h1, h2]
  refine ⟨hstep, fun evs => ?_⟩
  rw [hstep, logRun_written_stable evs _ rfl]

/-- **C3, witness.**  The state reached by enqueue-then-stop. -/
theorem C3_shutdown_no_drain_witness :
    ((logRun logInit [.enqueue [120], .stop]).running = false ∧
      (logRun logInit [.enqueue [120], .stop]).writerDone = false) ∧
    (logRun (logStep (logRun logInit [.enqueue [120], .stop]) .writerStep) []).written =
      (logRun logInit [.enqueue [120], .stop]).written :=
  ⟨⟨by decide, by decide⟩,
    (C3_shutdown_no_drain (logRun logInit [.enqueue [120], .stop])
      (by decide) (by decide)).2 []⟩

/-- **C4, counterexample.**  The log queue is `queue.Queue()` with default
`maxsize = 0`: no fixed capacity bounds its length — for any claimed capacity,
that many producer enqueues plus one exceed it. -/
theorem C4_counterexample :
    ¬ ∃ cap : Nat, ∀ n : Nat, (queue_after_puts (fun _ => [120]) n).length ≤ cap := by
  rintro ⟨cap, hcap⟩
  have h := hcap (cap + 1)
  rw [queue_after_puts_length] at h
  omega

/-- **C4 (amended).**  The queue is unbounded: it is created with the default
`maxsize = 0`, it is never full — so `put` never blocks and never drops — and
`n` enqueues grow it to length `n`. -/
theorem C4_queue_unbounded :
    log_queue_maxsize = 0 ∧
    (∀ q : List (List Nat), queue_put_blocks log_queue_maxsize q = false) ∧
    (∀ f : Nat → List Nat, ∀ n : Nat, (queue_after_puts f n).length = n) := by
  refine ⟨rfl, fun q => ?_, queue_after_puts_length⟩
  simp [queue_put_blocks, queue_full, log_queue_maxsize]

/-- **C5, counterexample.**  A line consisting of only a terminator is
skipped, not forwarded: the chunk `"\n"` produces no record at all, and
`process_line` maps the empty line to `none`. -/
theorem C5_counterexample :
    monitor_emitted none [[10]] = [] ∧ process_line none [] = none := by
  decide

/-- **C5 (amended).**  The `if line` guard at line 104 drops empty lines: a
terminator-only line yields no record for either sink, and consequently every
record forwarded to the sinks is non-empty. -/
theorem C5_empty_line_skipped :
    process_line none [] = none ∧
    ∀ (f : Option (List Nat)) (cs : List (List Nat)) (r : List Nat),
      r ∈ monitor_emitted f cs → r ≠ [] :=
  ⟨by decide, fun f cs r h => monitor_emitted_nonempty f cs r h⟩

/-- **C5, witness.**  The record extracted from `"a\n"` is non-empty. -/
theorem C5_empty_line_skipped_witness :
    ([97] ∈ monitor_emitted none [[97, 10]]) ∧ ([97] : List Nat) ≠ [] :=
  ⟨by decide, C5_empty_line_skipped.2 none [[97, 10]] [97] (by decide)⟩

/-- **C6, counterexample.**  The claimed "rendered iff filter absent or
matching" fails on the empty assembled line: with no filter configured the
line passes the filter, yet it is not rendered, because line 104 also
requires the line to be non-empty. -/
theorem C6_counterexample :
    ¬ (((dispatch_line none true []).1 = true) ↔ should_display none [] = true) := by
  decide

/-- **C6 (amended).**  For every *non-empty* assembled line, the line is
rendered iff the filter is absent or matches; the log enqueue is gated by the
same decision (and additionally by a log file being configured); and the
spec's scenario holds: filter `ERR` against lines `boot`, `ERR: fail`, `OK`
forwards exactly `ERR: fail` to the console and to the log queue. -/
theorem C6_filter_gates_both_sinks :
    (∀ (f : Option (List Nat)) (line : List Nat), rstrip_cr line = line → line ≠ [] →
      (((dispatch_line f true line).1 = true) ↔ should_display f line = true)) ∧
    (∀ (f : Option (List Nat)) (cfg : Bool) (line : List Nat),
      (dispatch_line f cfg line).2 = ((dispatch_line f cfg line).1 && cfg)) ∧
    monitor_console (some [69, 82, 82]) none
        [[98, 111, 111, 116, 10, 69, 82, 82, 58, 32, 102, 97, 105, 108, 10, 79, 75, 10]] =
      [[69, 82, 82, 58, 32, 102, 97, 105, 108]] ∧
    monitor_logged (some [69, 82, 82]) none
        [[98, 111, 111, 116, 10, 69, 82, 82, 58, 32, 102, 97, 105, 108, 10, 79, 75, 10]] =
      [[69, 82, 82, 58, 32, 102, 97, 105, 108, 10]] := by
  refine ⟨?_, ?_, by decide, by decide⟩
  · intro f line hs hne
    have hemp : line.isEmpty = false := by
      cases line with
      | nil => exact absurd rfl hne
      | cons a l => rfl
    simp only [dispatch_line, process_line, hs]
    cases hsd : should_display f line with
    | false => simp [hemp, hsd]
    | true => simp [hemp, hsd]
  · intro f cfg line
    cases hp : process_line f line <;> simp [dispatch_line, hp]

/-- **C6, witness.**  The matching line of the scenario. -/
theorem C6_filter_gates_both_sinks_witness :
    (rstrip_cr [69, 82, 82, 58, 32, 102, 97, 105, 108] =
        [69, 82, 82, 58, 32, 102, 97, 105, 108]) ∧
    (((dispatch_line (some [69, 82, 82]) true [69, 82, 82, 58, 32, 102, 97, 105, 108]).1
        = true) ↔
      should_display (some [69, 82, 82]) [69, 82, 82, 58, 32, 102, 97, 105, 108] = true) :=
  ⟨by decide, C6_filter_gates_both_sinks.1 (some [69, 82, 82])
    [69, 82, 82, 58, 32, 102, 97, 105, 108] (by decide) (by decide)⟩

/-- **C7, counterexample.**  `rstrip` removes the whole trailing run of
carriage returns, not just one: the input `"A\r\r\n"` yields the record `"A"`,
not `"A\r"` as the claim requires. -/
theorem C7_counterexample :
    monitor_emitted none [[65, 13, 13, 10]] = [[65]] ∧ [65] ≠ ([65, 13] : List Nat) := by
  decide

/-- **C7 (amended).**  For every extracted line, the entire trailing run of
carriage-return bytes is stripped (so the record never ends in one), and no
other content is removed: the line is the record followed by some number of
`CR` bytes.  In particular `"A\r\r\n"` yields `"A"`. -/
theorem C7_rstrip_trailing_run (l : List Nat) :
    (∃ k, l = rstrip_cr l ++ List.replicate k 13 ∧
      ∀ x, (rstrip_cr l).getLast? = some x → x ≠ 13) ∧
    monitor_emitted none [[65, 13, 13, 10]] = [[65]] :=
  ⟨rstrip_cr_spec l, by decide⟩

/-- **C8.**  Bytes after the last terminator stay pending and are never
emitted: the spec's scenario `b"boot\r\nOK\r\nincomplete"` yields exactly
the records `boot` and `OK` with `incomplete` left pending; in general the
pending buffer never contains a terminator, and the extracted lines plus the
pending remainder reconstruct the whole decoded input (nothing is emitted
early, nothing is lost). -/
theorem C8_pending_buffer :
    monitor_run none
        [[98, 111, 111, 116, 13, 10, 79, 75, 13, 10,
          105, 110, 99, 111, 109, 112, 108, 101, 116, 101]] =
      ([[98, 111, 111, 116], [79, 75]],
       [105, 110, 99, 111, 109, 112, 108, 101, 116, 101]) ∧
    (∀ (f : Option (List Nat)) (cs : List (List Nat)), 10 ∉ (monitor_run f cs).2) ∧
    (∀ cs : List (List Nat),
      joinNL (runChunksStr [] cs).1 ++ (runChunksStr [] cs).2 = cs.flatten) := by
  refine ⟨by decide, fun f cs => ?_, fun cs => ?_⟩
  · rw [monitor_run_eq]
    exact extractLines_pend_no_nl _
  · rw [runChunksStr_eq cs [] (by simp), List.nil_append]
    exact extractLines_recon _

/-- **C9.**  Decoding with `errors='replace'` is total — it never raises, so
the `except UnicodeDecodeError` branch at lines 112-114 is unreachable from
the decode — and an invalid byte becomes a visible replacement character that
is then processed as a regular line. -/
theorem C9_decode_never_raises :
    (∀ bs : List Nat, exceptOk (pyDecodeUtf8 false bs) = true) ∧
    pyDecodeUtf8 false [0xFF] = .ok [replChar] ∧
    monitor_run none [[0xFF, 10]] = ([[replChar]], []) :=
  ⟨fun bs => pyDecodeUtf8_replace_ok_aux bs.length bs le_rfl, rfl, by decide⟩

/-- **C10.**  Filtering is an unanchored search: with no pattern every line
passes; with a pattern a line passes exactly when the pattern occurs
*somewhere* inside it; and the occurrence need be neither at the start nor
the whole line, as the line `"x ERR"` shows for the pattern `"ERR"`. -/
theorem C10_search_unanchored :
    (∀ line : List Nat, should_display none line = true) ∧
    (∀ pat line : List Nat,
      should_display (some pat) line = true ↔ ∃ u v, line = u ++ pat ++ v) ∧
    should_display (some [69, 82, 82]) [120, 32, 69, 82, 82] = true ∧
    re_matchAt [69, 82, 82] [120, 32, 69, 82, 82] 0 = false ∧
    [120, 32, 69, 82, 82] ≠ [69, 82, 82] := by
  refine ⟨fun line => rfl, fun pat line => ?_, by decide, by decide, by decide⟩
  exact re_search_iff pat line

end Monitor
